import Mathlib

/-!
# Verification of the Research Digest Toolkit core

Shallow embedding of the core subsystems of the research-digest-toolkit
repository, together with theorems settling the specification claims:

* `src/database.py` — the persistent deduplication store
  (`item_exists`, `add_item`, `init_db`);
* `src/scrapers/hn_scraper.py` — the recursive HackerNews comment-tree
  fetcher (`_HNClient.get_item`, `_fetch_comments_recursive`);
* `src/scrapers/reddit_scraper.py` — the recursive Reddit comment
  extraction (`_extract_comments_recursive`) and the score sort performed
  by `RedditScraper.run`;
* `src/utils.py` — `save_document`;
* `src/research_digest.py` — the pipeline orchestrator
  (`run_command`, the scraping stages and `run`).

Effectful Python code is embedded by making the environment explicit:
network and storage faults become oracle parameters, and exception
handling becomes a total function over an `Except` result.
-/

namespace ResearchDigestToolkit

/-! ## Deduplication store (`src/database.py`)

A row of the `processed_items` table.  The table is created by `init_db`
with `PRIMARY KEY (source, unique_id)`, so a well-formed database state
holds at most one row per (source, unique_id) pair.  The timestamp is
abstracted to a `Nat`. -/

structure ProcessedItem where
  source : String
  unique_id : String
  processed_at : Nat
deriving DecidableEq, Repr

/-- The state of the SQLite database: the rows of `processed_items`,
in insertion order. -/
structure DBState where
  items : List ProcessedItem
deriving DecidableEq, Repr

/-- `init_db` creates the `processed_items` table if it does not exist;
a fresh database is the empty table. -/
def init_db : DBState := ⟨[]⟩

/-- Fault model for the storage layer: whether `sqlite3.connect` and
`cursor.execute` raise `sqlite3.Error`.  A storage layer that "raises on
every call" has both flags set. -/
structure SQLiteFault where
  connectRaises : Bool
  executeRaises : Bool
deriving DecidableEq, Repr

/-- A storage layer with no faults. -/
def noFault : SQLiteFault := ⟨false, false⟩

/-- `get_connection()`: `sqlite3.connect` either raises (`sqlite3.Error`,
modelled as `Except.error`) or yields a handle on the database state. -/
def get_connection (fault : SQLiteFault) (db : DBState) : Except String DBState :=
  if fault.connectRaises then .error "sqlite3.Error" else .ok db

/-- Whether a row matches the (source, unique_id) key. -/
def keyMatches (source unique_id : String) (row : ProcessedItem) : Bool :=
  row.source == source && row.unique_id == unique_id

/-- The body of `item_exists` before exception handling:
`get_connection`, then
`SELECT 1 FROM processed_items WHERE source = ? AND unique_id = ?`
followed by `fetchone() is not None`.  Each step may raise. -/
def item_exists_attempt (fault : SQLiteFault) (db : DBState)
    (source unique_id : String) : Except String Bool :=
  match get_connection fault db with
  | .error e => .error e
  | .ok con =>
    if fault.executeRaises then .error "sqlite3.Error"
    else .ok (con.items.any (keyMatches source unique_id))

/-- `item_exists(source, unique_id)`: the `try` body with
`except sqlite3.Error` returning `False` ("Fail safe: assume it doesn't
exist").  Total: it never throws. -/
def item_exists (fault : SQLiteFault) (db : DBState)
    (source unique_id : String) : Bool :=
  match item_exists_attempt fault db source unique_id with
  | .ok b => b
  | .error _ => false

/-- The body of `add_item` before exception handling: `get_connection`,
then `INSERT OR IGNORE INTO processed_items ... VALUES (?, ?, ?)` and
commit.  `INSERT OR IGNORE` inserts the row unless a row with the same
primary key `(source, unique_id)` is already present, in which case it
does nothing and raises no error. -/
def add_item_attempt (fault : SQLiteFault) (db : DBState)
    (source unique_id : String) (now : Nat) : Except String DBState :=
  match get_connection fault db with
  | .error e => .error e
  | .ok con =>
    if fault.executeRaises then .error "sqlite3.Error"
    else if con.items.any (keyMatches source unique_id) then .ok con
    else .ok ⟨con.items ++ [⟨source, unique_id, now⟩]⟩

/-- `add_item(source, unique_id)`: the `try` body with
`except sqlite3.Error` logging and swallowing the error, leaving the
stored state unchanged. -/
def add_item (fault : SQLiteFault) (db : DBState)
    (source unique_id : String) (now : Nat) : DBState :=
  match add_item_attempt fault db source unique_id now with
  | .ok db' => db'
  | .error _ => db

/-- Number of rows stored for a given (source, unique_id) pair. -/
def countKey (db : DBState) (source unique_id : String) : Nat :=
  (db.items.filter (keyMatches source unique_id)).length

/-! ### Claims C1 and C2 -/

/-- **C1.** For every source string and unique id, and for every storage
fault (the underlying database raising on its calls), the existence
check `item_exists(source, unique_id)` returns `false` rather than
propagating the exception (fail-open).  It never throws: `item_exists`
is a total function into `Bool` for every fault model. -/
theorem item_exists_fail_open (fault : SQLiteFault) (db : DBState)
    (source unique_id : String)
    (h : fault.connectRaises = true ∨ fault.executeRaises = true) :
    item_exists fault db source unique_id = false := by
  unfold item_exists item_exists_attempt get_connection
  rcases h with h | h
  · simp [h]
  · cases hc : fault.connectRaises <;> simp [h]

/-- Concrete witness for C1: a storage layer that raises on every call
still yields `false` for `item_exists("hn", "42")` on a database that
does contain the row. -/
theorem item_exists_fail_open_witness :
    item_exists ⟨true, true⟩ ⟨[⟨"hn", "42", 0⟩]⟩ "hn" "42" = false :=
  item_exists_fail_open ⟨true, true⟩ ⟨[⟨"hn", "42", 0⟩]⟩ "hn" "42" (Or.inl rfl)

/-- **C2.** Recording a pair once or twice leaves exactly one row for
that pair (given the primary-key invariant that the initial state holds
at most one), after which `item_exists` returns `true`; recording an
already-present pair changes nothing and raises no error (`add_item` is
total and idempotent). -/
theorem add_item_idempotent (db : DBState) (source unique_id : String)
    (t₁ t₂ : Nat) (hpk : countKey db source unique_id ≤ 1) :
    countKey (add_item noFault db source unique_id t₁) source unique_id = 1 ∧
    add_item noFault (add_item noFault db source unique_id t₁)
        source unique_id t₂ =
      add_item noFault db source unique_id t₁ ∧
    item_exists noFault (add_item noFault db source unique_id t₁)
        source unique_id = true := by
  have hadd : ∀ (d : DBState) (t : Nat), add_item noFault d source unique_id t =
      if d.items.any (keyMatches source unique_id) = true then d
      else ⟨d.items ++ [⟨source, unique_id, t⟩]⟩ := by
    intro d t
    unfold add_item add_item_attempt get_connection
    by_cases h : d.items.any (keyMatches source unique_id) = true <;>
      simp [noFault, h]
  have hex : ∀ d : DBState, item_exists noFault d source unique_id =
      d.items.any (keyMatches source unique_id) := fun d => rfl
  have hany : ∀ l : List ProcessedItem,
      l.any (keyMatches source unique_id) = true ↔
      (l.filter (keyMatches source unique_id)).length ≠ 0 := by
    intro l
    induction l with
    | nil => simp
    | cons x xs ih =>
      by_cases hx : keyMatches source unique_id x = true <;>
        simp [List.any_cons, List.filter_cons, hx, ih]
  by_cases hmem : db.items.any (keyMatches source unique_id) = true
  · have h1 : add_item noFault db source unique_id t₁ = db := by
      rw [hadd]; simp [hmem]
    have hlen := (hany db.items).mp hmem
    unfold countKey at hpk
    refine ⟨?_, ?_, ?_⟩
    · rw [h1]; unfold countKey; omega
    · rw [h1, hadd]; simp [hmem]
    · rw [h1, hex]; exact hmem
  · have hmem' : db.items.any (keyMatches source unique_id) = false := by
      simpa using hmem
    have h1 : add_item noFault db source unique_id t₁ =
        ⟨db.items ++ [⟨source, unique_id, t₁⟩]⟩ := by
      rw [hadd]; simp [hmem']
    have hlen0 : (db.items.filter (keyMatches source unique_id)).length = 0 := by
      by_contra hne
      exact hmem ((hany db.items).mpr hne)
    have hkeyself : keyMatches source unique_id ⟨source, unique_id, t₁⟩ = true := by
      simp [keyMatches]
    have hmem1 : (db.items ++ [(⟨source, unique_id, t₁⟩ : ProcessedItem)]).any
        (keyMatches source unique_id) = true := by
      rw [List.any_append]
      simp [hkeyself]
    refine ⟨?_, ?_, ?_⟩
    · rw [h1]
      unfold countKey
      simp only [List.filter_append, List.length_append, hlen0,
        List.filter_cons, hkeyself, List.filter_nil]
      simp
    · rw [h1, hadd]
      simp only [hmem1]
      simp
    · rw [h1, hex]
      exact hmem1

/-- Concrete witness for C2: starting from the freshly initialized
database, recording ("hn", "42") once stores exactly one row, a second
record is a no-op, and the pair then exists. -/
theorem add_item_idempotent_witness :
    countKey (add_item noFault init_db "hn" "42" 5) "hn" "42" = 1 ∧
    add_item noFault (add_item noFault init_db "hn" "42" 5) "hn" "42" 9 =
      add_item noFault init_db "hn" "42" 5 ∧
    item_exists noFault (add_item noFault init_db "hn" "42" 5) "hn" "42" = true :=
  add_item_idempotent init_db "hn" "42" 5 9 (by decide)

/-! ## HackerNews tree fetcher (`src/scrapers/hn_scraper.py`)

An item returned by the Firebase API (`/item/<id>.json`), restricted to
the fields `_fetch_comments_recursive` inspects. -/

structure HNItem where
  id : Nat
  author : String
  text : String
  deleted : Bool
  dead : Bool
  kids : List Nat
deriving DecidableEq, Repr

/-- Outcome of one HTTP request for an item id:
the API returns the item, or returns `null` (the JSON body decodes to
`None`), or the request fails with a `requests.exceptions.RequestException`
(connection error, timeout, or a `raise_for_status` HTTP error). -/
inductive NetResult where
  | ok (item : HNItem)
  | null
  | err
deriving DecidableEq, Repr

/-- `_HNClient.get_item`: performs the request and returns the decoded
item; `except requests.exceptions.RequestException: return None` makes
it total — a failed request yields `none`, never an exception. -/
def get_item (net : Nat → NetResult) (item_id : Nat) : Option HNItem :=
  match net item_id with
  | .ok item => some item
  | .null => none
  | .err => none

/-- A fetched comment: the item together with its `comment['replies']`
list. -/
inductive HNComment where
  | node (item : HNItem) (replies : List HNComment)

/-- `_fetch_comments_recursive(client, comment_ids, max_depth,
current_depth)`.  Returns `[]` when `current_depth >= max_depth` or the
id list is empty.  Otherwise all sibling ids are fetched by the worker
pool (`executor.map(client.get_item, comment_ids)`, which yields results
in the order of `comment_ids` regardless of completion timing — see
`executorMap` and claim C8 below), then each fetched comment is dropped
if it is `None`, `deleted` or `dead`, and otherwise gets its `replies`
by recursion on its `kids` at `current_depth + 1` (an empty `kids` list
short-circuits to `[]`). -/
def _fetch_comments_recursive (net : Nat → NetResult) (comment_ids : List Nat)
    (max_depth current_depth : Nat) : List HNComment :=
  if max_depth ≤ current_depth ∨ comment_ids = [] then []
  else
    (comment_ids.map (get_item net)).filterMap fun fetched =>
      match fetched with
      | none => none
      | some comment =>
        if comment.deleted || comment.dead then none
        else some (HNComment.node comment
          (if comment.kids = [] then []
           else _fetch_comments_recursive net comment.kids max_depth
             (current_depth + 1)))
termination_by max_depth - current_depth
decreasing_by
  simp only [not_or, not_le] at *
  omega

/-- Normal form of the fetcher: the `comment_ids = []` guard is
subsumed by `filterMap` over the empty list. -/
theorem fetch_eq (net : Nat → NetResult) (comment_ids : List Nat)
    (max_depth current_depth : Nat) :
    _fetch_comments_recursive net comment_ids max_depth current_depth =
    if max_depth ≤ current_depth then []
    else
      (comment_ids.map (get_item net)).filterMap fun fetched =>
        match fetched with
        | none => none
        | some comment =>
          if comment.deleted || comment.dead then none
          else some (HNComment.node comment
            (if comment.kids = [] then []
             else _fetch_comments_recursive net comment.kids max_depth
               (current_depth + 1))) := by
  rw [_fetch_comments_recursive]
  by_cases h1 : max_depth ≤ current_depth
  · simp [h1]
  · by_cases h2 : comment_ids = [] <;> simp [h1, h2]

mutual

/-- Height of a fetched comment: a node at the root of the comment list
sits at depth 1, its replies at depth 2, and so on; `repliesHeight l`
is the greatest depth of any node of the forest `l` (0 for an empty
forest). -/
def commentHeight : HNComment → Nat
  | .node _ replies => 1 + repliesHeight replies

/-- Greatest node depth of a forest of fetched comments. -/
def repliesHeight : List HNComment → Nat
  | [] => 0
  | c :: cs => max (commentHeight c) (repliesHeight cs)

end

mutual

/-- All items appearing anywhere in a fetched comment tree. -/
def commentItems : HNComment → List HNItem
  | .node item replies => item :: forestItems replies

/-- All items appearing anywhere in a forest of fetched comments. -/
def forestItems : List HNComment → List HNItem
  | [] => []
  | c :: cs => commentItems c ++ forestItems cs

end

theorem repliesHeight_le (l : List HNComment) (n : Nat)
    (h : ∀ c ∈ l, commentHeight c ≤ n) : repliesHeight l ≤ n := by
  induction l with
  | nil => simp [repliesHeight]
  | cons c cs ih =>
    simp only [repliesHeight, max_le_iff]
    exact ⟨h c (List.mem_cons_self c cs), ih fun x hx => h x (List.mem_cons_of_mem c hx)⟩

/-- Depth bound, generalized over the current depth: the forest fetched
at `current_depth` has height at most `max_depth - current_depth`. -/
theorem fetch_height_le (k : Nat) : ∀ (net : Nat → NetResult)
    (comment_ids : List Nat) (max_depth current_depth : Nat),
    max_depth - current_depth ≤ k →
    repliesHeight (_fetch_comments_recursive net comment_ids max_depth
      current_depth) ≤ max_depth - current_depth := by
  induction k with
  | zero =>
    intro net ids M c hk
    have hMc : M ≤ c := by omega
    rw [fetch_eq]
    simp [hMc, repliesHeight]
  | succ k ih =>
    intro net ids M c hk
    by_cases hMc : M ≤ c
    · rw [fetch_eq]; simp [hMc, repliesHeight]
    · rw [fetch_eq]
      simp only [hMc, if_false]
      apply repliesHeight_le
      intro cm hcm
      rcases List.mem_filterMap.mp hcm with ⟨fetched, _, hstep⟩
      match fetched with
      | none => simp at hstep
      | some comment =>
        simp only at hstep
        by_cases hdd : (comment.deleted || comment.dead) = true
        · simp [hdd] at hstep
        · have hdd' : (comment.deleted || comment.dead) = false := by
            simpa using hdd
          rw [hdd'] at hstep
          simp only [Bool.false_eq_true, if_false, Option.some.injEq] at hstep
          subst hstep
          simp only [commentHeight]
          by_cases hkids : comment.kids = []
          · simp [hkids, repliesHeight]; omega
          · simp only [hkids, if_false]
            have hrec := ih net comment.kids M (c + 1) (by omega)
            omega

/-! ## Reddit comment extraction (`src/scrapers/reddit_scraper.py`) -/

/-- A flattened comment as produced by `_extract_comments_recursive`:
`{"author": ..., "body": ..., "score": ..., "depth": ...}`. -/
structure RedditComment where
  author : String
  body : String
  score : Int
  depth : Nat
deriving DecidableEq, Repr

/-- A child node of the Reddit listing JSON: `child["kind"]` plus the
fields of `child["data"]` that `_extract_comments_recursive` reads.
`replies` is `some children` when `comment_data["replies"]` is a dict
holding `data.children`, and `none` when it is absent or the empty
string. -/
inductive RedditChild where
  | mk (kind : String) (author : String) (body : String) (score : Int)
      (replies : Option (List RedditChild))

/-- `_extract_comments_recursive(children, depth)`: skips any child
whose `kind` is not `"t1"` and any comment whose body is `"[deleted]"`
or `"[removed]"` (in both cases without recursing into its replies, so
the whole subtree is dropped); otherwise emits the comment and then the
flattened extraction of its replies at `depth + 1`, preserving the
source order of siblings. -/
def _extract_comments_recursive : List RedditChild → Nat → List RedditComment
  | [], _ => []
  | .mk kind author body score replies :: rest, depth =>
    if kind ≠ "t1" then _extract_comments_recursive rest depth
    else if body = "[deleted]" ∨ body = "[removed]" then
      _extract_comments_recursive rest depth
    else
      ⟨author, body, score, depth⟩ ::
        ((match replies with
          | some children => _extract_comments_recursive children (depth + 1)
          | none => []) ++ _extract_comments_recursive rest depth)

/-- Unfolding equation for `_extract_comments_recursive` on a cons. -/
theorem extract_cons (kind author body : String) (score : Int)
    (replies : Option (List RedditChild)) (rest : List RedditChild)
    (depth : Nat) :
    _extract_comments_recursive (.mk kind author body score replies :: rest)
      depth =
    if kind ≠ "t1" then _extract_comments_recursive rest depth
    else if body = "[deleted]" ∨ body = "[removed]" then
      _extract_comments_recursive rest depth
    else
      ⟨author, body, score, depth⟩ ::
        ((match replies with
          | some children => _extract_comments_recursive children (depth + 1)
          | none => []) ++ _extract_comments_recursive rest depth) := by
  rw [_extract_comments_recursive.eq_def]

/-- The full flattened source tree in DFS order, with no filtering:
the order in which the source reports the comments. -/
def redditSourceComments : List RedditChild → Nat → List RedditComment
  | [], _ => []
  | .mk _ author body score replies :: rest, depth =>
    ⟨author, body, score, depth⟩ ::
      ((match replies with
        | some children => redditSourceComments children (depth + 1)
        | none => []) ++ redditSourceComments rest depth)

/-! ## Claims C3, C4, C5 -/

/-- **C3.** The tree returned by the recursive comment fetcher contains
no node at depth greater than the configured `max_depth` (root comments
sit at depth 1, so this is exactly `repliesHeight ≤ max_depth`), and a
call at the depth bound returns an empty child list regardless of what
the source reports for the ids. -/
theorem fetch_respects_max_depth (net : Nat → NetResult)
    (comment_ids : List Nat) (max_depth : Nat) :
    repliesHeight (_fetch_comments_recursive net comment_ids max_depth 0)
      ≤ max_depth ∧
    _fetch_comments_recursive net comment_ids max_depth max_depth = [] := by
  constructor
  · have h := fetch_height_le max_depth net comment_ids max_depth 0 (by omega)
    simpa using h
  · rw [fetch_eq]
    simp

/-- Helper: a property of items holds on a forest if it holds on the
items of each tree of the forest. -/
theorem forestItems_forall {P : HNItem → Prop} (l : List HNComment)
    (h : ∀ c ∈ l, ∀ it ∈ commentItems c, P it) :
    ∀ it ∈ forestItems l, P it := by
  induction l with
  | nil => intro it hit; simp [forestItems] at hit
  | cons c cs ih =>
    intro it hit
    rw [forestItems, List.mem_append] at hit
    rcases hit with hit | hit
    · exact h c (List.mem_cons_self c cs) it hit
    · exact ih (fun c' hc' => h c' (List.mem_cons_of_mem c hc')) it hit

/-- Helper, generalized over the remaining depth budget: every item in
the fetched tree is neither deleted nor dead. -/
theorem fetch_items_live (k : Nat) : ∀ (net : Nat → NetResult)
    (comment_ids : List Nat) (max_depth current_depth : Nat),
    max_depth - current_depth ≤ k →
    ∀ it ∈ forestItems (_fetch_comments_recursive net comment_ids max_depth
      current_depth), it.deleted = false ∧ it.dead = false := by
  induction k with
  | zero =>
    intro net ids M c hk it hit
    have hMc : M ≤ c := by omega
    rw [fetch_eq] at hit
    simp [hMc, forestItems] at hit
  | succ k ih =>
    intro net ids M c hk it hit
    by_cases hMc : M ≤ c
    · rw [fetch_eq] at hit
      simp [hMc, forestItems] at hit
    · rw [fetch_eq] at hit
      simp only [hMc, if_false] at hit
      revert it
      apply forestItems_forall
      intro cm hcm it hit
      rcases List.mem_filterMap.mp hcm with ⟨fetched, _, hstep⟩
      match fetched with
      | none => simp at hstep
      | some comment =>
        simp only at hstep
        by_cases hdd : (comment.deleted || comment.dead) = true
        · simp [hdd] at hstep
        · have hdd' : (comment.deleted || comment.dead) = false := by
            simpa using hdd
          rw [hdd'] at hstep
          simp only [Bool.false_eq_true, if_false, Option.some.injEq] at hstep
          subst hstep
          rw [commentItems, List.mem_cons] at hit
          rcases hit with hit | hit
          · subst hit
            simpa [Bool.or_eq_false_iff] using hdd'
          · by_cases hkids : comment.kids = []
            · simp [hkids, forestItems] at hit
            · simp only [hkids, if_false] at hit
              exact ih net comment.kids M (c + 1) (by omega) it hit

/-- **C4.** A node marked deleted, removed, or dead by the source is
pruned from the output together with its whole subtree, leaving no
placeholder: (1) no item of a fetched HackerNews tree is deleted or
dead; (2) an id whose item is deleted or dead contributes nothing to
the fetched tree — the output is exactly the output for the sibling
list without it (and since its subtree is reached only through it, the
subtree does not appear either); (3) the same holds for a Reddit child
whose body is `"[deleted]"` or `"[removed]"`. -/
theorem deleted_nodes_pruned (net : Nat → NetResult) (comment_ids : List Nat)
    (max_depth current_depth : Nat) :
    (∀ it ∈ forestItems (_fetch_comments_recursive net comment_ids max_depth
      current_depth), it.deleted = false ∧ it.dead = false) ∧
    (∀ (i : Nat) (it : HNItem) (xs ys : List Nat),
      net i = NetResult.ok it → it.deleted = true ∨ it.dead = true →
      _fetch_comments_recursive net (xs ++ i :: ys) max_depth current_depth =
        _fetch_comments_recursive net (xs ++ ys) max_depth current_depth) ∧
    (∀ (kind author body : String) (score : Int)
      (replies : Option (List RedditChild)) (xs ys : List RedditChild)
      (depth : Nat), body = "[deleted]" ∨ body = "[removed]" →
      _extract_comments_recursive
          (xs ++ RedditChild.mk kind author body score replies :: ys) depth =
        _extract_comments_recursive (xs ++ ys) depth) := by
  refine ⟨fetch_items_live (max_depth - current_depth) net comment_ids
    max_depth current_depth (by omega), ?_, ?_⟩
  · intro i it xs ys hnet hdd
    rw [fetch_eq, fetch_eq]
    by_cases hMc : max_depth ≤ current_depth
    · simp [hMc]
    · have hgi : get_item net i = some it := by simp [get_item, hnet]
      have hdd2 : (it.deleted || it.dead) = true := by
        rcases hdd with h | h <;> simp [h]
      simp [hMc, hgi, hdd, List.filterMap_append, List.filterMap_cons]
  · intro kind author body score replies xs ys depth hbody
    induction xs with
    | nil =>
      simp only [List.nil_append]
      rw [extract_cons]
      by_cases hk : kind ≠ "t1"
      · rw [if_pos hk]
      · rw [if_neg hk, if_pos hbody]
    | cons x xs ih =>
      match x with
      | .mk k a b s r =>
        simp only [List.cons_append]
        rw [extract_cons, extract_cons]
        by_cases hk : k ≠ "t1"
        · rw [if_pos hk, if_pos hk]
          exact ih
        · by_cases hb : b = "[deleted]" ∨ b = "[removed]"
          · rw [if_neg hk, if_neg hk, if_pos hb, if_pos hb]
            exact ih
          · rw [if_neg hk, if_neg hk, if_neg hb, if_neg hb, ih]

/-- Concrete witness for C4: with id 2 mapped to a dead item carrying
children, the fetched tree over siblings `[1, 2, 3]` equals the tree
over `[1, 3]`, and a Reddit `[deleted]` comment with replies vanishes
from the extraction. -/
theorem deleted_nodes_pruned_witness :
    _fetch_comments_recursive
        (fun n => if n = 2 then NetResult.ok ⟨2, "x", "gone", false, true, [7]⟩
          else NetResult.ok ⟨n, "a", "hello", false, false, []⟩)
        ([1] ++ 2 :: [3]) 3 0 =
      _fetch_comments_recursive
        (fun n => if n = 2 then NetResult.ok ⟨2, "x", "gone", false, true, [7]⟩
          else NetResult.ok ⟨n, "a", "hello", false, false, []⟩)
        ([1] ++ [3]) 3 0 ∧
    _extract_comments_recursive
        ([RedditChild.mk "t1" "alice" "first" 4 none] ++
          RedditChild.mk "t1" "bob" "[deleted]" 9
            (some [RedditChild.mk "t1" "eve" "reply" 2 none]) ::
          [RedditChild.mk "t1" "carol" "last" 1 none]) 0 =
      _extract_comments_recursive
        ([RedditChild.mk "t1" "alice" "first" 4 none] ++
          [RedditChild.mk "t1" "carol" "last" 1 none]) 0 :=
  ⟨(deleted_nodes_pruned _ [] 3 0).2.1 2 ⟨2, "x", "gone", false, true, [7]⟩
      [1] [3] rfl (Or.inr rfl),
   (deleted_nodes_pruned (fun _ => NetResult.null) [] 3 0).2.2 "t1" "bob"
      "[deleted]" 9 (some [RedditChild.mk "t1" "eve" "reply" 2 none])
      [RedditChild.mk "t1" "alice" "first" 4 none]
      [RedditChild.mk "t1" "carol" "last" 1 none] 0 (Or.inl rfl)⟩

/-- **C5.** A network failure fetching one sibling node is absorbed by
`get_item` (which returns `None` instead of raising) and that node is
skipped: the tree fetched for a sibling list containing the failing id
is exactly the tree fetched for the other siblings, so the other
results are all still present and unchanged. -/
theorem sibling_fetch_failure_isolated (net : Nat → NetResult) (e : Nat)
    (xs ys : List Nat) (max_depth current_depth : Nat)
    (hnet : net e = NetResult.err) :
    get_item net e = none ∧
    _fetch_comments_recursive net (xs ++ e :: ys) max_depth current_depth =
      _fetch_comments_recursive net (xs ++ ys) max_depth current_depth := by
  have hgi : get_item net e = none := by simp [get_item, hnet]
  refine ⟨hgi, ?_⟩
  rw [fetch_eq, fetch_eq]
  by_cases hMc : max_depth ≤ current_depth
  · simp [hMc]
  · simp [hMc, hgi, List.filterMap_append]

/-- Concrete witness for C5: id 2's fetch raises, ids 1 and 3 succeed;
the output tree is that of siblings `[1, 3]`. -/
theorem sibling_fetch_failure_isolated_witness :
    get_item
        (fun n => if n = 2 then NetResult.err
          else NetResult.ok ⟨n, "a", "hello", false, false, []⟩) 2 = none ∧
    _fetch_comments_recursive
        (fun n => if n = 2 then NetResult.err
          else NetResult.ok ⟨n, "a", "hello", false, false, []⟩)
        ([1] ++ 2 :: [3]) 3 0 =
      _fetch_comments_recursive
        (fun n => if n = 2 then NetResult.err
          else NetResult.ok ⟨n, "a", "hello", false, false, []⟩)
        ([1] ++ [3]) 3 0 :=
  sibling_fetch_failure_isolated _ 2 [1] [3] 3 0 rfl

/-! ## Ordering of concurrent sibling fetches (claim C8)

`_fetch_comments_recursive` fetches each level with
`ThreadPoolExecutor.map(client.get_item, comment_ids)`.  `executorMap`
models this: the tasks are submitted in list order, complete in the
arbitrary order given by `sched` (a permutation of the task indices),
and the `map` iterator yields each task's result in submission order. -/

def executorMap {β : Type} (f : Nat → β) (ids : List Nat) (sched : List Nat) :
    List β :=
  let completed := sched.filterMap fun i => (ids[i]?).map fun x => (i, f x)
  (List.range ids.length).filterMap fun i => completed.lookup i

theorem executor_lookup {β : Type} (f : Nat → β) (ids : List Nat)
    (i y : Nat) (hy : ids[i]? = some y) :
    ∀ sched : List Nat, i ∈ sched →
    ((sched.filterMap fun j => (ids[j]?).map fun x => (j, f x)).lookup i) =
      some (f y) := by
  intro sched
  induction sched with
  | nil => intro h; cases h
  | cons j rest ih =>
    intro hmem
    by_cases hj : j = i
    · subst hj
      simp [List.filterMap_cons, hy, List.lookup]
    · have hmem' : i ∈ rest := by
        rcases List.mem_cons.mp hmem with h | h
        · exact absurd h.symm hj
        · exact h
      cases hcase : ids[j]? with
      | none => simpa [List.filterMap_cons, hcase] using ih hmem'
      | some z =>
        have hbeq : (i == j) = false := by
          simp only [beq_eq_false_iff_ne]
          exact fun h => hj h.symm
        simpa [List.filterMap_cons, hcase, List.lookup, hbeq] using ih hmem'

theorem filterMap_eq_map_of {α β : Type} (l : List α) (F : α → Option β)
    (g : α → β) (h : ∀ x ∈ l, F x = some (g x)) : l.filterMap F = l.map g := by
  induction l with
  | nil => rfl
  | cons x xs ih =>
    rw [List.filterMap_cons, h x (List.mem_cons_self x xs), List.map_cons,
      ih fun a ha => h a (List.mem_cons_of_mem x ha)]

theorem map_getD_range {β : Type} (f : Nat → β) : ∀ ids : List Nat,
    (List.range ids.length).map (fun i => f (ids.getD i 0)) = ids.map f := by
  intro ids
  induction ids with
  | nil => simp
  | cons x l ih =>
    rw [List.length_cons, List.range_succ_eq_map]
    simp only [List.map_cons, List.getD_cons_zero, List.map_map]
    refine congrArg _ ?_
    rw [← ih]
    refine List.map_congr_left ?_
    intro i _
    simp [Function.comp, List.getD_cons_succ]

/-- `executor.map` yields the results in submission order, for every
completion schedule. -/
theorem executorMap_eq_map {β : Type} (f : Nat → β) (ids : List Nat)
    (sched : List Nat) (hperm : sched.Perm (List.range ids.length)) :
    executorMap f ids sched = ids.map f := by
  unfold executorMap
  have hpoint : ∀ i ∈ List.range ids.length,
      ((sched.filterMap fun j => (ids[j]?).map fun x => (j, f x)).lookup i) =
        some ((fun j => f (ids.getD j 0)) i) := by
    intro i hi
    rw [List.mem_range] at hi
    have hy : ids[i]? = some (ids.getD i 0) := by
      rw [List.getD_eq_getElem?_getD]
      cases h : ids[i]? with
      | none =>
        rw [List.getElem?_eq_none_iff] at h
        omega
      | some y => rfl
    exact executor_lookup f ids i _ hy sched
      (hperm.mem_iff.mpr (List.mem_range.mpr hi))
  rw [filterMap_eq_map_of _ _ _ hpoint, map_getD_range]

/-! ### The Reddit presentation order (`RedditScraper.run`) -/

/-- Unfolding equations for the extraction and the source DFS at `[]`. -/
theorem extract_nil (depth : Nat) : _extract_comments_recursive [] depth = [] := by
  rw [_extract_comments_recursive]

/-- Unfolding equation for `redditSourceComments` on a cons. -/
theorem source_cons (kind author body : String) (score : Int)
    (replies : Option (List RedditChild)) (rest : List RedditChild)
    (depth : Nat) :
    redditSourceComments (.mk kind author body score replies :: rest) depth =
    ⟨author, body, score, depth⟩ ::
      ((match replies with
        | some children => redditSourceComments children (depth + 1)
        | none => []) ++ redditSourceComments rest depth) := by
  rw [redditSourceComments.eq_def]

/-- Stable insertion for a descending sort on `score`; an element is
placed before the first strictly smaller score, after equal ones it
precedes in the original list. -/
def insertByScoreDesc (c : RedditComment) :
    List RedditComment → List RedditComment
  | [] => [c]
  | d :: ds =>
    if d.score ≤ c.score then c :: d :: ds else d :: insertByScoreDesc c ds

/-- `comments.sort(key=lambda c: c["score"], reverse=True)` in
`RedditScraper.run`: Python's sort is stable, and a stable sort is a
unique function of the list and the key, so this stable descending
insertion sort computes the same list. -/
def sortByScoreDesc : List RedditComment → List RedditComment
  | [] => []
  | c :: cs => insertByScoreDesc c (sortByScoreDesc cs)

/-- The comment list `RedditScraper.run` hands to `_format_post`:
`comments = _fetch_comments(...)` (which flattens via
`_extract_comments_recursive`) followed by the descending score sort. -/
def reddit_run_comments (children : List RedditChild) : List RedditComment :=
  sortByScoreDesc (_extract_comments_recursive children 0)

/-- **C8, counterexample.**  The claim says children are emitted and
formatted in the exact order of the sibling list the source returned;
for the Reddit collector this is false: with source siblings
alice (score 1) then bob (score 5), the comment list that
`RedditScraper.run` formats is bob-then-alice — the sort by descending
score at `reddit_scraper.py:170` reorders them. -/
theorem reddit_format_order_not_source_order :
    reddit_run_comments
        [RedditChild.mk "t1" "alice" "first" 1 none,
         RedditChild.mk "t1" "bob" "second" 5 none] ≠
      _extract_comments_recursive
        [RedditChild.mk "t1" "alice" "first" 1 none,
         RedditChild.mk "t1" "bob" "second" 5 none] 0 := by
  have he : _extract_comments_recursive
      [RedditChild.mk "t1" "alice" "first" 1 none,
       RedditChild.mk "t1" "bob" "second" 5 none] 0 =
      [⟨"alice", "first", 1, 0⟩, ⟨"bob", "second", 5, 0⟩] := by
    simp [extract_cons, extract_nil]
  rw [reddit_run_comments, he]
  decide

/-- **C8, amended.**  (1) For the HackerNews Tree Fetcher,
`executor.map` yields the fetched siblings in submission order — the
order of the source id list — for every completion schedule, so the
output is deterministic regardless of network timing; (2) the fetched
level is a homomorphic image of the id list: siblings contribute to the
output in the exact order of the source list; (3) the Reddit extraction
also preserves the source DFS order (its output is a sublist of the
source-order flattening) — but the list `RedditScraper.run` formats is
then re-sorted by descending score (see the counterexample above),
which is deterministic yet not the source sibling order. -/
theorem tree_fetch_order_deterministic :
    (∀ (β : Type) (f : Nat → β) (ids sched : List Nat),
      sched.Perm (List.range ids.length) →
      executorMap f ids sched = ids.map f) ∧
    (∀ (net : Nat → NetResult) (xs ys : List Nat)
      (max_depth current_depth : Nat), current_depth < max_depth →
      _fetch_comments_recursive net (xs ++ ys) max_depth current_depth =
        _fetch_comments_recursive net xs max_depth current_depth ++
        _fetch_comments_recursive net ys max_depth current_depth) ∧
    (∀ (children : List RedditChild) (depth : Nat),
      (_extract_comments_recursive children depth).Sublist
        (redditSourceComments children depth)) := by
  refine ⟨fun β f ids sched hperm => executorMap_eq_map f ids sched hperm,
    ?_, ?_⟩
  · intro net xs ys M c h
    have hMc : ¬ M ≤ c := by omega
    rw [fetch_eq, fetch_eq, fetch_eq]
    simp [hMc, List.filterMap_append]
  · intro children depth
    induction children, depth using _extract_comments_recursive.induct with
    | case1 d => rw [extract_nil, redditSourceComments]
    | case2 kind author body score replies rest depth hk ih =>
      rw [extract_cons, source_cons, if_pos hk]
      exact List.Sublist.cons _ (ih.trans (List.sublist_append_right _ _))
    | case3 kind author body score replies rest depth hk hb ih =>
      rw [extract_cons, source_cons, if_neg hk, if_pos hb]
      exact List.Sublist.cons _ (ih.trans (List.sublist_append_right _ _))
    | case4 kind author body score replies rest depth hk hb ih1 ih2 =>
      rw [extract_cons, source_cons, if_neg hk, if_neg hb]
      cases replies with
      | some grand => exact List.Sublist.cons₂ _ (List.Sublist.append ih1 ih2)
      | none =>
        exact List.Sublist.cons₂ _
          (List.Sublist.append (List.Sublist.refl _) ih2)

/-- Concrete witness for the amended C8: two tasks completing in
reversed order still yield submission order, and a two-sibling level
splits homomorphically. -/
theorem tree_fetch_order_deterministic_witness :
    executorMap (fun n => n * 10) [4, 7] [1, 0] =
      [4, 7].map (fun n => n * 10) ∧
    _fetch_comments_recursive (fun _ => NetResult.null) ([1] ++ [2]) 2 0 =
      _fetch_comments_recursive (fun _ => NetResult.null) [1] 2 0 ++
        _fetch_comments_recursive (fun _ => NetResult.null) [2] 2 0 :=
  ⟨tree_fetch_order_deterministic.1 Nat (fun n => n * 10) [4, 7] [1, 0]
      (by decide),
   tree_fetch_order_deterministic.2.1 (fun _ => NetResult.null) [1] [2] 2 0
      (by decide)⟩

/-! ## `save_document` (`src/utils.py`) and per-item emission order

The collector loops in `HNScraper.run` (`hn_scraper.py:185-186`),
`RSSScraper.run` (`rss_scraper.py:154-155`) and `ArxivScraper.run`
(`arxiv_scraper.py:123-124`) all end an item's processing with the same
two steps: `utils.save_document(filepath, content, ...)` followed by
`database.add_item(source, id)`. -/

/-- The exception a filesystem step may raise: `IOError` (caught by the
first `except` of `save_document`) or any other exception (caught by
the second, catch-all `except`). -/
inductive FSError where
  | ioError (msg : String)
  | other (msg : String)
deriving DecidableEq, Repr

/-- The filesystem's behaviour for one `save_document` call: the
outcome of `filepath.parent.mkdir(parents=True, exist_ok=True)` and of
`open(filepath, "w") ... f.write(content)`. -/
structure FileSystem where
  mkdirResult : Except FSError Unit
  writeResult : Except FSError Unit

/-- The `try` body of `save_document`: create the parent directory,
then write the file; either step may raise. -/
def save_document_attempt (fs : FileSystem) : Except FSError Unit :=
  match fs.mkdirResult with
  | .error e => .error e
  | .ok _ => fs.writeResult

/-- `save_document(filepath, content)`: the body with both `except`
clauses, which log and swallow `IOError` and every other exception.
Total — it never raises; the returned Bool records the observable
effect (whether the file was written). -/
def save_document (fs : FileSystem) : Bool :=
  match save_document_attempt fs with
  | .ok _ => true
  | .error _ => false

/-- Events of one item's emission tail in a collector's `run` loop. -/
inductive ItemEvent where
  | write (written : Bool)
  | record
deriving DecidableEq, Repr

/-- The two steps each collector performs for an accepted item, in
program order: `utils.save_document(...)` then
`database.add_item(source, id)`. -/
def emit_item (fs : FileSystem) : List ItemEvent :=
  [ItemEvent.write (save_document fs), ItemEvent.record]

/-- Observable state after executing a prefix of the emission trace:
whether the document exists on disk and whether the (source, id) pair
was recorded in the dedup store. -/
structure ItemState where
  written : Bool
  recorded : Bool
deriving DecidableEq, Repr

/-- Execute a list of emission events from a given state. -/
def execEvents : List ItemEvent → ItemState → ItemState
  | [], st => st
  | ItemEvent.write w :: evs, st => execEvents evs ⟨w, st.recorded⟩
  | ItemEvent.record :: evs, st => execEvents evs ⟨st.written, true⟩

/-- State reached by an execution that runs exactly the events `evs`
(an execution that crashes mid-item runs a prefix of `emit_item`). -/
def runEvents (evs : List ItemEvent) : ItemState :=
  execEvents evs ⟨false, false⟩

/-- Prefixes of the two-event emission trace. -/
theorem emit_item_prefixes (fs : FileSystem) (p : List ItemEvent)
    (hp : p <+: emit_item fs) :
    p = [] ∨ p = [ItemEvent.write (save_document fs)] ∨ p = emit_item fs := by
  rcases hp with ⟨t, ht⟩
  match p with
  | [] => exact Or.inl rfl
  | [e] =>
    have ht' : e :: t =
        [ItemEvent.write (save_document fs), ItemEvent.record] := ht
    injection ht' with h1 h2
    exact Or.inr (Or.inl (by rw [h1]))
  | e₁ :: e₂ :: rest =>
    refine Or.inr (Or.inr ?_)
    have hlen := congrArg List.length ht
    simp only [emit_item, List.length_append, List.length_cons,
      List.length_nil] at hlen
    have hrest : rest = [] := List.eq_nil_of_length_eq_zero (by omega)
    have htnil : t = [] := List.eq_nil_of_length_eq_zero (by omega)
    subst hrest
    subst htnil
    simpa [emit_item] using ht

/-! ### Claims C7 and C10 -/

/-- **C7, counterexample.**  The claim states that no execution —
including one in which the write itself fails — reaches a state where
the item is recorded but its document was not written.  False: when the
write raises an `IOError`, `save_document` swallows it and the
collector proceeds to `database.add_item`, ending recorded-but-not-
written. -/
theorem write_then_record_counterexample :
    runEvents (emit_item ⟨Except.ok (), Except.error (FSError.ioError "disk full")⟩) =
      ⟨false, true⟩ := by
  rfl

/-- **C7, amended.**  For every item, the document write is invoked
strictly before the dedup-store record, so an execution that stops
between the two steps never reaches a state where the item is recorded
without the write having been attempted; when the write itself
succeeds, no reachable state (at any crash point) is recorded-but-not-
written.  (When the write fails, `save_document` swallows the error and
the record still happens — see the counterexample above and claim
C10.) -/
theorem write_then_record_ordering (fs : FileSystem) (p : List ItemEvent)
    (hp : p <+: emit_item fs) (hrec : (runEvents p).recorded = true) :
    ItemEvent.write (save_document fs) ∈ p ∧
    (save_document_attempt fs = Except.ok () →
      (runEvents p).written = true) := by
  rcases emit_item_prefixes fs p hp with h | h | h
  · subst h
    simp [runEvents, execEvents] at hrec
  · subst h
    simp [runEvents, execEvents] at hrec
  · subst h
    refine ⟨by simp [emit_item], ?_⟩
    intro hok
    have hw : save_document fs = true := by
      rw [save_document, hok]
    simp [emit_item, runEvents, execEvents, hw]

/-- Concrete witness for the amended C7: with a healthy filesystem, the
full emission trace has the write before the record and ends
written-and-recorded. -/
theorem write_then_record_ordering_witness :
    ItemEvent.write (save_document ⟨Except.ok (), Except.ok ()⟩) ∈
      emit_item ⟨Except.ok (), Except.ok ()⟩ ∧
    (save_document_attempt ⟨Except.ok (), Except.ok ()⟩ = Except.ok () →
      (runEvents (emit_item ⟨Except.ok (), Except.ok ()⟩)).written = true) :=
  write_then_record_ordering ⟨Except.ok (), Except.ok ()⟩
    (emit_item ⟨Except.ok (), Except.ok ()⟩) ⟨[], List.append_nil _⟩ (by rfl)

/-- **C10.**  `save_document` never raises: for every filesystem
behaviour — mkdir or write raising `IOError` or any other exception —
it returns an ordinary Bool, `true` exactly when the attempt succeeded;
and the calling collector continues to its next step, so the dedup
record still executes (the final state is recorded even when the write
failed). -/
theorem save_document_never_raises (fs : FileSystem) :
    (save_document fs = true ↔ save_document_attempt fs = Except.ok ()) ∧
    (runEvents (emit_item fs)).recorded = true := by
  constructor
  · unfold save_document
    cases h : save_document_attempt fs with
    | ok u => cases u; simp
    | error e => simp [h]
  · simp [emit_item, runEvents, execEvents]

/-! ## Pipeline orchestrator (`src/research_digest.py`)

`ResearchDigest.run` drives the stages sequentially; every external
step goes through `run_command`, which catches timeouts and any other
exception and returns `(False, "")` instead of raising.  The outcome of
each command invocation is an oracle parameter; importantly, an
outcome only ever feeds the statistics and logging — which commands are
issued depends on the configuration alone. -/

/-- Outcome of one `subprocess.run` invocation: the subprocess
completed with a return code (non-zero when the collector script
raised), timed out after 300s, or launching it raised. -/
inductive CmdOutcome where
  | completed (returncode : Nat) (stdout : String)
  | timedOut
  | raised (msg : String)
deriving DecidableEq, Repr

/-- `ResearchDigest.run_command(cmd)`: returns
`(result.returncode == 0, result.stdout)`; `except TimeoutExpired` and
`except Exception` both return `(False, "")`.  Total — a collector
subprocess that raises never propagates out of `run_command`. -/
def run_command (outcome : CmdOutcome) : Bool × String :=
  match outcome with
  | .completed rc out => (rc == 0, out)
  | .timedOut => (false, "")
  | .raised _ => (false, "")

/-- One RSS feed entry of the configuration (`url` is `none` when the
entry has no/empty url and is skipped). -/
structure FeedConfig where
  url : Option String
  feedName : String
deriving DecidableEq, Repr

/-- One subreddit entry of the configuration. -/
structure SubredditConfig where
  subName : Option String
  minUpvotes : Nat
deriving DecidableEq, Repr

/-- The configuration fields `ResearchDigest.run` and its stages read,
with the `config.get(..., default)` defaults already applied. -/
structure DigestConfig where
  hackernewsEnabled : Bool
  hnSearchTopics : List String
  rssFeeds : List FeedConfig
  redditEnabled : Bool
  subreddits : List SubredditConfig
  convertDocuments : Bool
  formatForObsidian : Bool
  autoTag : Bool
  splitLargeFiles : Bool
  maxFileSize : Nat
  checkDuplicates : Bool
  generateSummary : Bool
deriving DecidableEq, Repr

/-- Ambient facts the stages probe directly: `shutil.which` for the
conversion tools and the existence of the `raw/` and `obsidian/`
directories produced by earlier collaborators. -/
structure FsEnv where
  pandocAvailable : Bool
  pdftotextAvailable : Bool
  rawDirExists : Bool
  obsidianDirExists : Bool
deriving DecidableEq, Repr

/-- Observable events of one pipeline run: each external command
issued through `run_command` (with its success flag) and the writing
of the summary report. -/
inductive PipelineEvent where
  | command (tool : String) (arg : String) (ok : Bool)
  | report
deriving DecidableEq, Repr

/-- `ResearchDigest.scrape_hackernews`: when enabled, invokes
`./hn_scraper.py` once per configured search topic; the command's
success only feeds the statistics counter. -/
def scrape_hackernews (cfg : DigestConfig)
    (exec : String → String → CmdOutcome) : List PipelineEvent :=
  if cfg.hackernewsEnabled then
    cfg.hnSearchTopics.map fun topic =>
      PipelineEvent.command "./hn_scraper.py" topic
        (run_command (exec "./hn_scraper.py" topic)).1
  else []

/-- `ResearchDigest.scrape_rss`: invokes `./rss_reader.py` once per
feed that has a url; success only controls a log line. -/
def scrape_rss (cfg : DigestConfig)
    (exec : String → String → CmdOutcome) : List PipelineEvent :=
  cfg.rssFeeds.filterMap fun feed =>
    feed.url.map fun u =>
      PipelineEvent.command "./rss_reader.py" u
        (run_command (exec "./rss_reader.py" u)).1

/-- `ResearchDigest.scrape_reddit`: when enabled, invokes
`./reddit_scraper.py` once per named subreddit. -/
def scrape_reddit (cfg : DigestConfig)
    (exec : String → String → CmdOutcome) : List PipelineEvent :=
  if cfg.redditEnabled then
    cfg.subreddits.filterMap fun sub =>
      sub.subName.map fun n =>
        PipelineEvent.command "./reddit_scraper.py" n
          (run_command (exec "./reddit_scraper.py" n)).1
  else []

/-- `ResearchDigest.convert_documents`: skipped when the feature flag
is off, the `raw/` directory is missing, or pandoc/pdftotext are not
installed. -/
def convert_documents (cfg : DigestConfig) (env : FsEnv)
    (exec : String → String → CmdOutcome) : List PipelineEvent :=
  if cfg.convertDocuments && env.rawDirExists && env.pandocAvailable &&
      env.pdftotextAvailable then
    [PipelineEvent.command "./convert_documents.sh" "raw"
      (run_command (exec "./convert_documents.sh" "raw")).1]
  else []

/-- `ResearchDigest.process_for_obsidian`: skipped when the flag is
off or `raw/` is missing; `--auto-tag` is appended per config. -/
def process_for_obsidian (cfg : DigestConfig) (env : FsEnv)
    (exec : String → String → CmdOutcome) : List PipelineEvent :=
  if cfg.formatForObsidian && env.rawDirExists then
    [PipelineEvent.command "./obsidian_prep.py"
      (if cfg.autoTag then "--auto-tag" else "")
      (run_command (exec "./obsidian_prep.py"
        (if cfg.autoTag then "--auto-tag" else ""))).1]
  else []

/-- `ResearchDigest.split_large_files`: skipped when the flag is off
or `obsidian/` is missing. -/
def split_large_files (cfg : DigestConfig) (env : FsEnv)
    (exec : String → String → CmdOutcome) : List PipelineEvent :=
  if cfg.splitLargeFiles && env.obsidianDirExists then
    [PipelineEvent.command "./file_splitter.py" (toString cfg.maxFileSize)
      (run_command (exec "./file_splitter.py"
        (toString cfg.maxFileSize))).1]
  else []

/-- `ResearchDigest.deduplicate`: scans and deletes duplicate files
in-process; it issues no external command and writes no report. -/
def deduplicate (_cfg : DigestConfig) : List PipelineEvent := []

/-- `ResearchDigest.generate_report`: writes `REPORT.md` unless
`report.generate_summary` is off. -/
def generate_report (cfg : DigestConfig) : List PipelineEvent :=
  if cfg.generateSummary then [PipelineEvent.report] else []

/-- `ResearchDigest.run`: the full stage sequence
Collect (hackernews, rss, reddit) → Convert → Format → Split →
Deduplicate → Report. -/
def ResearchDigest.run (cfg : DigestConfig) (env : FsEnv)
    (exec : String → String → CmdOutcome) : List PipelineEvent :=
  scrape_hackernews cfg exec ++ scrape_rss cfg exec ++
    scrape_reddit cfg exec ++ convert_documents cfg env exec ++
    process_for_obsidian cfg env exec ++ split_large_files cfg env exec ++
    deduplicate cfg ++ generate_report cfg

/-- The commands a run issues, in order, stripped of their outcomes. -/
def issuedCommands (evs : List PipelineEvent) : List (String × String) :=
  evs.filterMap fun e =>
    match e with
    | .command tool arg _ => some (tool, arg)
    | .report => none

theorem issued_append (a b : List PipelineEvent) :
    issuedCommands (a ++ b) = issuedCommands a ++ issuedCommands b := by
  simp [issuedCommands, List.filterMap_append]

theorem issued_map (tool : String) (args : List String)
    (okf : String → Bool) :
    issuedCommands (args.map fun a => PipelineEvent.command tool a (okf a)) =
      args.map fun a => (tool, a) := by
  induction args with
  | nil => rfl
  | cons a rest ih =>
    simp only [List.map_cons, issuedCommands, List.filterMap_cons] at ih ⊢
    rw [ih]

theorem issued_hn (cfg : DigestConfig)
    (e : String → String → CmdOutcome) :
    issuedCommands (scrape_hackernews cfg e) =
      if cfg.hackernewsEnabled then
        cfg.hnSearchTopics.map fun t => ("./hn_scraper.py", t)
      else [] := by
  unfold scrape_hackernews
  by_cases h : cfg.hackernewsEnabled
  · simp only [h, if_true]
    exact issued_map _ _ _
  · simp [h, issuedCommands]

theorem issued_rss (cfg : DigestConfig)
    (e : String → String → CmdOutcome) :
    issuedCommands (scrape_rss cfg e) =
      cfg.rssFeeds.filterMap fun feed =>
        feed.url.map fun u => ("./rss_reader.py", u) := by
  unfold scrape_rss
  generalize cfg.rssFeeds = feeds
  induction feeds with
  | nil => rfl
  | cons f rest ih =>
    cases hu : f.url with
    | none => simpa [List.filterMap_cons, hu] using ih
    | some u =>
      simp only [issuedCommands] at ih
      simp [issuedCommands, List.filterMap_cons, hu, ih]

theorem issued_reddit (cfg : DigestConfig)
    (e : String → String → CmdOutcome) :
    issuedCommands (scrape_reddit cfg e) =
      if cfg.redditEnabled then
        cfg.subreddits.filterMap fun sub =>
          sub.subName.map fun n => ("./reddit_scraper.py", n)
      else [] := by
  unfold scrape_reddit
  by_cases h : cfg.redditEnabled
  · simp only [h, if_true]
    generalize cfg.subreddits = subs
    induction subs with
    | nil => rfl
    | cons s rest ih =>
      cases hn : s.subName with
      | none => simpa [List.filterMap_cons, hn] using ih
      | some n =>
        simp only [issuedCommands] at ih
        simp [issuedCommands, List.filterMap_cons, hn, ih]
  · simp [h, issuedCommands]

theorem issued_convert (cfg : DigestConfig) (env : FsEnv)
    (e : String → String → CmdOutcome) :
    issuedCommands (convert_documents cfg env e) =
      if cfg.convertDocuments && env.rawDirExists && env.pandocAvailable &&
          env.pdftotextAvailable then [("./convert_documents.sh", "raw")]
      else [] := by
  unfold convert_documents
  by_cases h : cfg.convertDocuments && env.rawDirExists &&
      env.pandocAvailable && env.pdftotextAvailable <;>
    simp [h, issuedCommands]

theorem issued_obsidian (cfg : DigestConfig) (env : FsEnv)
    (e : String → String → CmdOutcome) :
    issuedCommands (process_for_obsidian cfg env e) =
      if cfg.formatForObsidian && env.rawDirExists then
        [("./obsidian_prep.py", if cfg.autoTag then "--auto-tag" else "")]
      else [] := by
  unfold process_for_obsidian
  by_cases h : cfg.formatForObsidian && env.rawDirExists <;>
    simp [h, issuedCommands]

theorem issued_split (cfg : DigestConfig) (env : FsEnv)
    (e : String → String → CmdOutcome) :
    issuedCommands (split_large_files cfg env e) =
      if cfg.splitLargeFiles && env.obsidianDirExists then
        [("./file_splitter.py", toString cfg.maxFileSize)]
      else [] := by
  unfold split_large_files
  by_cases h : cfg.splitLargeFiles && env.obsidianDirExists <;>
    simp [h, issuedCommands]

theorem issued_dedup (cfg : DigestConfig) :
    issuedCommands (deduplicate cfg) = [] := rfl

theorem issued_report (cfg : DigestConfig) :
    issuedCommands (generate_report cfg) = [] := by
  unfold generate_report
  by_cases h : cfg.generateSummary <;> simp [h, issuedCommands]

/-! ### Claim C6 -/

/-- **C6.** A collector subprocess that raises is absorbed by
`run_command` (which returns `(False, "")`): which commands the run
issues — in particular that every subsequent collector still runs — is
a function of the configuration and environment alone, identical under
any two command-outcome oracles; and the run always reaches the Report
stage, writing the summary artifact exactly when
`report.generate_summary` is enabled (its default is on). -/
theorem collector_failure_isolated (cfg : DigestConfig) (env : FsEnv)
    (exec exec' : String → String → CmdOutcome) :
    issuedCommands (ResearchDigest.run cfg env exec) =
      issuedCommands (ResearchDigest.run cfg env exec') ∧
    (PipelineEvent.report ∈ ResearchDigest.run cfg env exec ↔
      cfg.generateSummary = true) := by
  constructor
  · simp only [ResearchDigest.run, issued_append, issued_hn, issued_rss,
      issued_reddit, issued_convert, issued_obsidian, issued_split,
      issued_dedup, issued_report]
  · unfold ResearchDigest.run
    constructor
    · intro hmem
      simp only [List.mem_append] at hmem
      rcases hmem with ((((((h | h) | h) | h) | h) | h) | h) | h
      · unfold scrape_hackernews at h
        by_cases hb : cfg.hackernewsEnabled <;> simp [hb] at h
      · unfold scrape_rss at h
        rcases List.mem_filterMap.mp h with ⟨f, _, hf⟩
        cases hu : f.url <;> simp [hu] at hf
      · unfold scrape_reddit at h
        by_cases hb : cfg.redditEnabled
        · simp only [hb, if_true] at h
          rcases List.mem_filterMap.mp h with ⟨s, _, hs⟩
          cases hn : s.subName <;> simp [hn] at hs
        · simp [hb] at h
      · unfold convert_documents at h
        by_cases hb : cfg.convertDocuments && env.rawDirExists &&
            env.pandocAvailable && env.pdftotextAvailable <;> simp [hb] at h
      · unfold process_for_obsidian at h
        by_cases hb : cfg.formatForObsidian && env.rawDirExists <;>
          simp [hb] at h
      · unfold split_large_files at h
        by_cases hb : cfg.splitLargeFiles && env.obsidianDirExists <;>
          simp [hb] at h
      · simp [deduplicate] at h
      · unfold generate_report at h
        by_cases hb : cfg.generateSummary
        · exact hb
        · simp [hb] at h
    · intro hb
      have : PipelineEvent.report ∈ generate_report cfg := by
        simp [generate_report, hb]
      simp only [List.mem_append]
      exact Or.inr this

/-! ## Plugin registry (claim C9) -/

/-- A collector plugin instance: its identifying `name` and the shared
verbosity flag passed at construction. -/
structure CollectorPlugin where
  pluginName : String
  verbose : Bool
deriving DecidableEq, Repr

/-- Modelled from the spec: the plugin discovery performed by the
plugin-based `ResearchDigest.__init__` — the variant exercised by
`tests/test_plugin_loading.py`, which populates `self.scrapers` — is
not present under `src/` (the `src/research_digest.py` there drives the
collectors as subprocesses).  Spec §4.3: at startup, enumerate the
candidate collector implementations, instantiate one instance of each,
and skip (with a log) any implementation whose load fails — e.g. a
missing optional dependency such as `feedparser` or `arxiv` — without
aborting discovery of the remaining implementations.  A candidate is
therefore `Except.error msg` when its load raises and `Except.ok p`
when it yields an instance. -/
def discover_scrapers (candidates : List (Except String CollectorPlugin)) :
    List CollectorPlugin :=
  candidates.filterMap fun c =>
    match c with
    | .ok p => some p
    | .error _ => none

/-- **C9.** A failing plugin load is skipped and contributes nothing:
discovery over a candidate list containing a failure equals the
discovery over the other candidates (in order), and every successfully
loaded implementation is still present in the discovered set. -/
theorem plugin_load_failure_skipped (e : String)
    (xs ys : List (Except String CollectorPlugin)) :
    discover_scrapers (xs ++ Except.error e :: ys) =
      discover_scrapers xs ++ discover_scrapers ys ∧
    (∀ p : CollectorPlugin, Except.ok p ∈ xs ++ Except.error e :: ys →
      p ∈ discover_scrapers (xs ++ Except.error e :: ys)) := by
  constructor
  · simp [discover_scrapers, List.filterMap_append, List.filterMap_cons]
  · intro p hmem
    exact List.mem_filterMap.mpr ⟨Except.ok p, hmem, rfl⟩

/-- Concrete witness for C9: with the RSS plugin failing to import
`feedparser`, the HackerNews and Reddit plugins are both still
discovered. -/
theorem plugin_load_failure_skipped_witness :
    discover_scrapers ([Except.ok ⟨"HackerNews", false⟩] ++
        Except.error "No module named feedparser" ::
        [Except.ok ⟨"Reddit", false⟩]) =
      discover_scrapers [Except.ok ⟨"HackerNews", false⟩] ++
        discover_scrapers [Except.ok ⟨"Reddit", false⟩] ∧
    (⟨"Reddit", false⟩ : CollectorPlugin) ∈
      discover_scrapers ([Except.ok ⟨"HackerNews", false⟩] ++
        Except.error "No module named feedparser" ::
        [Except.ok ⟨"Reddit", false⟩]) :=
  ⟨(plugin_load_failure_skipped "No module named feedparser"
      [Except.ok ⟨"HackerNews", false⟩] [Except.ok ⟨"Reddit", false⟩]).1,
   (plugin_load_failure_skipped "No module named feedparser"
      [Except.ok ⟨"HackerNews", false⟩] [Except.ok ⟨"Reddit", false⟩]).2
      ⟨"Reddit", false⟩ (by simp)⟩

end ResearchDigestToolkit
